import Mathlib

/-!
Shallow embedding of `src/coals/store.py` — a minimal Plasma-like in-memory
object store (create/put/seal/get/release/delete/evict plus a seal
notification queue), together with proofs of its specification properties.

Modelling choices, stated once here:

* Object identifiers (`uuid.uuid4()` strings) are modelled as natural
  numbers drawn from a `nextId` counter held in the store state; the code
  relies on generated identifiers being fresh, which the counter makes
  exact.  The shared-memory segment name (`"coals_" + obj_id[:8]`) is
  modelled as the identifier itself, so `shm_name` is a `Nat` field.
* `time.time()` timestamps are modelled by a logical clock that the store
  increments on every `create`; the code only uses timestamps to order
  records by creation (`evict`), for which a strictly increasing clock is
  faithful.
* The Manager dict `self.meta` is modelled as an insertion-ordered
  association list: assignment to an existing key replaces the value in
  place, assignment to a new key appends, exactly like a Python dict.
  Reads hand out copies, so the code's read–modify–write-back pattern is
  modelled by lookup followed by re-insertion.
* Shared-memory segments are modelled as an association list from segment
  name to byte list; bytes are `Nat`s.  `SharedMemory(create=True, ...)`
  adds a zero-filled entry, attaching (`SharedMemory(name=...)`) looks the
  entry up and fails when it is gone, `unlink` removes the entry (the
  code swallows `FileNotFoundError`, so removal is idempotent).
  OS-level details (page rounding of segment sizes, the `ValueError` a
  zero-byte segment raises) are below the metadata/lifecycle level the
  specification describes and are not modelled.
* Exceptions become an `Except StoreErr` result; `MemoryError` from the
  capacity check is `capacityExceeded`, `ObjectNotFound` is `notFound`,
  `ObjectNotSealed` is `notSealed`, and `FileNotFoundError` raised while
  attaching in `get` is `segmentGone`.
* `get_notification` blocks on a condition variable until the queue is
  non-empty or the timeout elapses.  Sequentially this reduces to: with a
  non-empty queue it pops the head; with an empty queue (and no concurrent
  `seal`) the timeout fires and it returns `None`.  It is modelled as that
  pure function on the state.
-/

/-- Errors raised by the store operations in `store.py`. -/
inductive StoreErr where
  | notFound
  | notSealed
  | capacityExceeded
  | segmentGone
deriving DecidableEq

/-- One metadata record of the Manager dict `self.meta`, as written by
`Store.create`: segment name, byte size, sealed flag, reference count and
creation timestamp. -/
structure Record where
  shm_name : Nat
  size : Nat
  sealed : Bool
  refcount : Nat
  created_at : Nat
deriving DecidableEq

/-- Lookup in an insertion-ordered association list (Python `dict.get`). -/
def dlookup {α : Type} : List (Nat × α) → Nat → Option α
  | [], _ => none
  | (k, v) :: rest, k' => if k = k' then some v else dlookup rest k'

/-- Assignment `d[k] = v` on a Python dict: replace in place when the key
exists, append otherwise. -/
def dinsert {α : Type} : List (Nat × α) → Nat → α → List (Nat × α)
  | [], k, v => [(k, v)]
  | (k', v') :: rest, k, v =>
    if k' = k then (k, v) :: rest else (k', v') :: dinsert rest k v

/-- Deletion `del d[k]` on a Python dict: remove the entry for `k`. -/
def derase {α : Type} : List (Nat × α) → Nat → List (Nat × α)
  | [], _ => []
  | (k', v') :: rest, k => if k' = k then rest else (k', v') :: derase rest k

/-- The keys of an association list, in order. -/
def keysOf {α : Type} (l : List (Nat × α)) : List Nat := l.map Prod.fst

/-- The whole state of one `Store` instance: the metadata table, the live
shared-memory segments, the configured capacity, the running
`_current_size` counter (a Python `int`, so `Int` here), the fresh-id
counter, the logical clock and the `_sealed_objects_queue`. -/
structure Store where
  meta : List (Nat × Record)
  segments : List (Nat × List Nat)
  capacity : Nat
  current_size : Int
  nextId : Nat
  clock : Nat
  queue : List Nat
deriving DecidableEq

/-- `Store.__init__`: empty tables, zero accounted size, empty queue. -/
def freshStore (capacity : Nat) : Store :=
  { meta := [], segments := [], capacity := capacity, current_size := 0,
    nextId := 0, clock := 0, queue := [] }

/-- `Store.create`: check capacity, allocate a zero-filled segment, insert
a metadata record with `sealed=False`, `refcount=1`, `created_at=now`, add
`size` to `_current_size`, and return the id together with the buffer. -/
def Store.create (s : Store) (size : Nat) :
    Except StoreErr (Nat × List Nat × Store) :=
  if s.current_size + (size : Int) > (s.capacity : Int) then
    .error .capacityExceeded
  else
    let obj_id := s.nextId
    let buf := List.replicate size 0
    let md : Record :=
      { shm_name := obj_id, size := size, sealed := false,
        refcount := 1, created_at := s.clock }
    .ok (obj_id, buf,
      { s with meta := dinsert s.meta obj_id md,
               segments := dinsert s.segments obj_id buf,
               current_size := s.current_size + (size : Int),
               nextId := s.nextId + 1,
               clock := s.clock + 1 })

/-- `Store.seal`: fail `notFound` when absent, otherwise set
`sealed=True`, write the record back, and append the id to the
notification queue (`_sealed_objects_queue.append(obj_id)`). -/
def Store.seal (s : Store) (obj_id : Nat) : Except StoreErr Store :=
  match dlookup s.meta obj_id with
  | none => .error .notFound
  | some md =>
    .ok { s with
            meta := dinsert s.meta obj_id { md with sealed := true },
            queue := s.queue ++ [obj_id] }

/-- `Store.put`: `create` for `len(data)` bytes, write the bytes through
the returned buffer (the segment now holds exactly `data`), close the
local handle (no shared state change), and `seal`. -/
def Store.put (s : Store) (data : List Nat) :
    Except StoreErr (Nat × Store) :=
  match s.create data.length with
  | .error e => .error e
  | .ok (obj_id, _buf, s₁) =>
    let s₂ := { s₁ with segments := dinsert s₁.segments obj_id data }
    match s₂.seal obj_id with
    | .error e => .error e
    | .ok s₃ => .ok (obj_id, s₃)

/-- `Store.get`: fail `notFound` when absent, `notSealed` when not sealed,
re-attach to the segment by name (failing like `SharedMemory(name=...)`
when it is gone), bump `refcount`, write the record back, and return the
buffer together with the recorded size. -/
def Store.get (s : Store) (obj_id : Nat) :
    Except StoreErr (List Nat × Nat × Store) :=
  match dlookup s.meta obj_id with
  | none => .error .notFound
  | some md =>
    if md.sealed = false then .error .notSealed
    else
      match dlookup s.segments md.shm_name with
      | none => .error .segmentGone
      | some buf =>
        .ok (buf, md.size,
          { s with meta := dinsert s.meta obj_id
                     { md with refcount := md.refcount + 1 } })

/-- `Store.contains`: membership test on the metadata table. -/
def Store.contains (s : Store) (obj_id : Nat) : Bool :=
  (dlookup s.meta obj_id).isSome

/-- `Store.info`: return the metadata record, `notFound` when absent. -/
def Store.info (s : Store) (obj_id : Nat) : Except StoreErr Record :=
  match dlookup s.meta obj_id with
  | none => .error .notFound
  | some md => .ok md

/-- `Store.delete`: fail `notFound` when absent; otherwise unlink the
segment (idempotently — `FileNotFoundError` is swallowed), subtract the
recorded size from `_current_size`, and drop the record, regardless of
its refcount. -/
def Store.delete (s : Store) (obj_id : Nat) : Except StoreErr Store :=
  match dlookup s.meta obj_id with
  | none => .error .notFound
  | some md =>
    .ok { s with
            segments := derase s.segments md.shm_name,
            current_size := s.current_size - (md.size : Int),
            meta := derase s.meta obj_id }

/-- `Store.release`: fail `notFound` when absent; decrement `refcount`;
when it reaches `<= 0` unlink the segment, subtract the size and drop the
record, otherwise write the decremented record back. -/
def Store.release (s : Store) (obj_id : Nat) : Except StoreErr Store :=
  match dlookup s.meta obj_id with
  | none => .error .notFound
  | some md =>
    if md.refcount - 1 ≤ 0 then
      .ok { s with
              segments := derase s.segments md.shm_name,
              current_size := s.current_size - (md.size : Int),
              meta := derase s.meta obj_id }
    else
      .ok { s with
              meta := dinsert s.meta obj_id
                { md with refcount := md.refcount - 1 } }

/-- The sort key of `evict`: ascending `created_at`. -/
def byTime (p q : Nat × Record) : Prop :=
  p.2.created_at ≤ q.2.created_at

instance : DecidableRel byTime := fun p q =>
  inferInstanceAs (Decidable (p.2.created_at ≤ q.2.created_at))

instance : IsTotal (Nat × Record) byTime :=
  ⟨fun p q => Nat.le_total p.2.created_at q.2.created_at⟩

instance : IsTrans (Nat × Record) byTime :=
  ⟨fun _ _ _ h h' => Nat.le_trans h h'⟩

/-- The snapshot `evict` builds: records with `refcount == 1 and sealed`,
in table order, then stably sorted ascending by `created_at` (Python's
`list.sort` is stable; so is `insertionSort` with this relation). -/
def evictable (s : Store) : List (Nat × Record) :=
  List.insertionSort byTime
    (s.meta.filter (fun p => p.2.refcount == 1 && p.2.sealed))

/-- The `for` loop of `Store.evict`: stop once `bytes_freed >= num_bytes`,
otherwise `delete` the next snapshot entry and add its size. -/
def Store.evictLoop : Store → Nat → Nat → List (Nat × Record) →
    Except StoreErr Store
  | s, _, _, [] => .ok s
  | s, bytes_freed, num_bytes, (obj_id, md) :: rest =>
    if bytes_freed ≥ num_bytes then .ok s
    else
      match s.delete obj_id with
      | .error e => .error e
      | .ok s₁ => Store.evictLoop s₁ (bytes_freed + md.size) num_bytes rest

/-- `Store.evict`: run the loop over the sorted evictable snapshot with
`bytes_freed = 0`. -/
def Store.evict (s : Store) (num_bytes : Nat) : Except StoreErr Store :=
  Store.evictLoop s 0 num_bytes (evictable s)

/-- `Store.get_notification`: with a non-empty queue, pop and return the
oldest entry (`pop(0)`); with an empty queue the timeout fires and the
result is `none`. -/
def Store.getNotification (s : Store) : Option Nat × Store :=
  match s.queue with
  | [] => (none, s)
  | x :: rest => (some x, { s with queue := rest })

/-- One store operation, for reasoning about sequences of calls. -/
inductive Act where
  | create (size : Nat)
  | put (data : List Nat)
  | seal (obj_id : Nat)
  | get (obj_id : Nat)
  | release (obj_id : Nat)
  | delete (obj_id : Nat)
  | evict (num_bytes : Nat)
deriving DecidableEq

/-- Apply one operation, keeping only the state; `none` when the call
raises. -/
def applyAct (s : Store) : Act → Option Store
  | .create size =>
    match s.create size with
    | .error _ => none
    | .ok (_, _, s') => some s'
  | .put data =>
    match s.put data with
    | .error _ => none
    | .ok (_, s') => some s'
  | .seal i =>
    match s.seal i with
    | .error _ => none
    | .ok s' => some s'
  | .get i =>
    match s.get i with
    | .error _ => none
    | .ok (_, _, s') => some s'
  | .release i =>
    match s.release i with
    | .error _ => none
    | .ok s' => some s'
  | .delete i =>
    match s.delete i with
    | .error _ => none
    | .ok s' => some s'
  | .evict n =>
    match s.evict n with
    | .error _ => none
    | .ok s' => some s'

/-- Run a sequence of operations; `none` as soon as one raises. -/
def runActs (s : Store) : List Act → Option Store
  | [] => some s
  | a :: rest =>
    match applyAct s a with
    | none => none
    | some s' => runActs s' rest

/-- A `get` or `release` call on one fixed identifier. -/
inductive RefOp where
  | get
  | release
deriving DecidableEq

/-- Run a sequence of `get`/`release` calls on `obj_id`; `none` as soon
as one raises. -/
def runRefOps (s : Store) (obj_id : Nat) : List RefOp → Option Store
  | [] => some s
  | .get :: rest =>
    match s.get obj_id with
    | .error _ => none
    | .ok (_, _, s') => runRefOps s' obj_id rest
  | .release :: rest =>
    match s.release obj_id with
    | .error _ => none
    | .ok s' => runRefOps s' obj_id rest

/-- Number of `get`s in a `RefOp` trace. -/
def countGets : List RefOp → Nat
  | [] => 0
  | .get :: rest => countGets rest + 1
  | .release :: rest => countGets rest

/-- Number of `release`s in a `RefOp` trace. -/
def countReleases : List RefOp → Nat
  | [] => 0
  | .get :: rest => countReleases rest
  | .release :: rest => countReleases rest + 1

/-- Sum of the `size` fields of a metadata table. -/
def sumSizes (l : List (Nat × Record)) : Nat :=
  (l.map (fun p => p.2.size)).sum

/-- Modelled from the spec: eviction deletes records from the sorted
evictable snapshot "until the cumulative freed size ≥ `target_bytes` or
no eligible records remain" — the greedy prefix of the snapshot whose
running freed total stays below the target.  `n` is the number of bytes
still to free. -/
def specSelect : List (Nat × Record) → Nat → List Nat
  | [], _ => []
  | (obj_id, md) :: rest, n =>
    if n = 0 then [] else obj_id :: specSelect rest (n - md.size)

/-! ### Association-list lemmas (Python dict semantics) -/

theorem dlookup_dinsert {α : Type} (l : List (Nat × α)) (k : Nat) (v : α)
    (k' : Nat) :
    dlookup (dinsert l k v) k' = if k = k' then some v else dlookup l k' := by
  induction l with
  | nil => simp [dinsert, dlookup]
  | cons p rest ih =>
    obtain ⟨a, b⟩ := p
    by_cases hak : a = k
    · subst hak
      by_cases hk' : a = k'
      · subst hk'
        simp [dinsert, dlookup]
      · simp [dinsert, dlookup, hk']
    · by_cases hk' : a = k'
      · subst hk'
        have hka : ¬ k = a := fun h => hak h.symm
        simp [dinsert, dlookup, hak, hka]
      · simp [dinsert, dlookup, hak, hk', ih]

theorem dlookup_dinsert_self {α : Type} (l : List (Nat × α)) (k : Nat)
    (v : α) : dlookup (dinsert l k v) k = some v := by
  simp [dlookup_dinsert]

theorem dlookup_dinsert_ne {α : Type} (l : List (Nat × α)) (k : Nat) (v : α)
    (k' : Nat) (h : k ≠ k') : dlookup (dinsert l k v) k' = dlookup l k' := by
  simp [dlookup_dinsert, h]

theorem mem_keysOf_iff {α : Type} (l : List (Nat × α)) (k : Nat) :
    k ∈ keysOf l ↔ (dlookup l k).isSome := by
  induction l with
  | nil => simp [keysOf, dlookup]
  | cons p rest ih =>
    obtain ⟨a, b⟩ := p
    by_cases hak : a = k
    · subst hak
      simp [keysOf, dlookup]
    · have hka : ¬ k = a := fun h => hak h.symm
      simp [keysOf] at ih
      simp [keysOf, dlookup, hak, hka, ih]

theorem dinsert_eq_append {α : Type} (l : List (Nat × α)) (k : Nat) (v : α)
    (h : dlookup l k = none) : dinsert l k v = l ++ [(k, v)] := by
  induction l with
  | nil => simp [dinsert]
  | cons p rest ih =>
    obtain ⟨a, b⟩ := p
    by_cases hak : a = k
    · subst hak
      simp [dlookup] at h
    · simp [dlookup, hak] at h
      simp [dinsert, hak, ih h]

theorem keysOf_dinsert_mem {α : Type} (l : List (Nat × α)) (k : Nat) (v : α)
    (h : (dlookup l k).isSome) : keysOf (dinsert l k v) = keysOf l := by
  induction l with
  | nil => simp [dlookup] at h
  | cons p rest ih =>
    obtain ⟨a, b⟩ := p
    by_cases hak : a = k
    · subst hak
      simp [dinsert, keysOf]
    · simp [dlookup, hak] at h
      simp [dinsert, keysOf, hak] at ih ⊢
      exact ih h

theorem derase_sublist {α : Type} (l : List (Nat × α)) (k : Nat) :
    (derase l k).Sublist l := by
  induction l with
  | nil => simp [derase]
  | cons p rest ih =>
    obtain ⟨a, b⟩ := p
    by_cases hak : a = k
    · simp [derase, hak]
    · simp [derase, hak]
      exact ih

theorem dlookup_derase_ne {α : Type} (l : List (Nat × α)) (k k' : Nat)
    (h : k ≠ k') : dlookup (derase l k) k' = dlookup l k' := by
  induction l with
  | nil => simp [derase]
  | cons p rest ih =>
    obtain ⟨a, b⟩ := p
    by_cases hak : a = k
    · subst hak
      simp [derase, dlookup, h]
    · by_cases hak' : a = k'
      · subst hak'
        simp [derase, dlookup, hak]
      · simp [derase, dlookup, hak, hak', ih]

theorem dlookup_derase_self {α : Type} (l : List (Nat × α)) (k : Nat)
    (hn : (keysOf l).Nodup) : dlookup (derase l k) k = none := by
  induction l with
  | nil => simp [derase, dlookup]
  | cons p rest ih =>
    obtain ⟨a, b⟩ := p
    have hcons : keysOf ((a, b) :: rest) = a :: keysOf rest := rfl
    rw [hcons] at hn
    have hna : a ∉ keysOf rest := (List.nodup_cons.1 hn).1
    have hnr : (keysOf rest).Nodup := (List.nodup_cons.1 hn).2
    by_cases hak : a = k
    · subst hak
      simp [derase]
      cases hl : dlookup rest a with
      | none => rfl
      | some v =>
        exact absurd ((mem_keysOf_iff rest a).2 (by simp [hl])) hna
    · simp [derase, dlookup, hak, ih hnr]

theorem sumSizes_append (l l' : List (Nat × Record)) :
    sumSizes (l ++ l') = sumSizes l + sumSizes l' := by
  simp [sumSizes]

theorem sumSizes_dinsert_same (l : List (Nat × Record)) (k : Nat)
    (md v : Record) (h : dlookup l k = some md) (hsz : v.size = md.size) :
    sumSizes (dinsert l k v) = sumSizes l := by
  induction l with
  | nil => simp [dlookup] at h
  | cons p rest ih =>
    obtain ⟨a, b⟩ := p
    by_cases hak : a = k
    · subst hak
      simp [dlookup] at h
      subst h
      simp [dinsert, sumSizes, hsz]
    · simp [dlookup, hak] at h
      simp [dinsert, sumSizes, hak] at ih ⊢
      exact ih h

theorem sumSizes_derase (l : List (Nat × Record)) (k : Nat) (md : Record)
    (h : dlookup l k = some md) :
    sumSizes l = md.size + sumSizes (derase l k) := by
  induction l with
  | nil => simp [dlookup] at h
  | cons p rest ih =>
    obtain ⟨a, b⟩ := p
    by_cases hak : a = k
    · subst hak
      simp [dlookup] at h
      subst h
      simp [derase, sumSizes]
    · simp [dlookup, hak] at h
      simp [derase, sumSizes, hak] at ih ⊢
      rw [ih h]
      ring

theorem dlookup_of_mem {α : Type} (l : List (Nat × α)) (k : Nat) (v : α)
    (hn : (keysOf l).Nodup) (h : (k, v) ∈ l) : dlookup l k = some v := by
  induction l with
  | nil => simp at h
  | cons p rest ih =>
    obtain ⟨a, b⟩ := p
    have hcons : keysOf ((a, b) :: rest) = a :: keysOf rest := rfl
    rw [hcons] at hn
    have hna : a ∉ keysOf rest := (List.nodup_cons.1 hn).1
    have hnr : (keysOf rest).Nodup := (List.nodup_cons.1 hn).2
    rcases List.mem_cons.1 h with heq | hmem
    · cases heq
      simp [dlookup]
    · by_cases hak : a = k
      · subst hak
        exact absurd ((mem_keysOf_iff rest a).2 (by simp [ih hnr hmem])) hna
      · simp [dlookup, hak, ih hnr hmem]

theorem mem_keysOf_derase {α : Type} (l : List (Nat × α)) (k k' : Nat)
    (hn : (keysOf l).Nodup) :
    k' ∈ keysOf (derase l k) ↔ (k' ∈ keysOf l ∧ k' ≠ k) := by
  by_cases hkk : k' = k
  · subst hkk
    simp [mem_keysOf_iff, dlookup_derase_self l k' hn]
  · simp [mem_keysOf_iff, dlookup_derase_ne l k k' (fun h => hkk h.symm), hkk]

/-! ### The store invariant -/

/-- Consistency of a store state, maintained by every operation: the
`_current_size` counter equals the sum of the recorded sizes and stays
within the capacity, every recorded or live segment key was generated by
the id counter, each record's segment name is its own id, the metadata
table and the segment table hold exactly the same keys, and both tables
are duplicate-free. -/
structure WF (s : Store) : Prop where
  size_eq : s.current_size = (sumSizes s.meta : Int)
  cap_le : s.current_size ≤ (s.capacity : Int)
  meta_lt : ∀ id, id ∈ keysOf s.meta → id < s.nextId
  seg_lt : ∀ id, id ∈ keysOf s.segments → id < s.nextId
  shm_id : ∀ id md, dlookup s.meta id = some md → md.shm_name = id
  sync : ∀ id, id ∈ keysOf s.meta ↔ id ∈ keysOf s.segments
  nodupM : (keysOf s.meta).Nodup
  nodupS : (keysOf s.segments).Nodup

theorem freshStore_wf (capacity : Nat) : WF (freshStore capacity) := by
  constructor <;> simp [freshStore, keysOf, sumSizes, dlookup]

theorem create_wf (s : Store) (size : Nat) (obj_id : Nat) (buf : List Nat)
    (s' : Store) (hwf : WF s) (h : s.create size = .ok (obj_id, buf, s')) :
    WF s' := by
  rw [Store.create] at h
  split at h
  · exact absurd h (by simp)
  · next hcap =>
    simp only [Except.ok.injEq, Prod.mk.injEq] at h
    obtain ⟨h₁, h₂, h₃⟩ := h
    subst h₁
    subst h₃
    have hfreshM : dlookup s.meta s.nextId = none := by
      cases hl : dlookup s.meta s.nextId with
      | none => rfl
      | some v =>
        have := hwf.meta_lt s.nextId ((mem_keysOf_iff ..).2 (by simp [hl]))
        omega
    have hfreshS : dlookup s.segments s.nextId = none := by
      cases hl : dlookup s.segments s.nextId with
      | none => rfl
      | some v =>
        have := hwf.seg_lt s.nextId ((mem_keysOf_iff ..).2 (by simp [hl]))
        omega
    have hnM : s.nextId ∉ keysOf s.meta := by
      simp [mem_keysOf_iff, hfreshM]
    have hnS : s.nextId ∉ keysOf s.segments := by
      simp [mem_keysOf_iff, hfreshS]
    have hM := dinsert_eq_append s.meta s.nextId
      { shm_name := s.nextId, size := size, sealed := false,
        refcount := 1, created_at := s.clock } hfreshM
    have hS := dinsert_eq_append s.segments s.nextId
      (List.replicate size 0) hfreshS
    constructor <;> dsimp only
    · rw [hM, sumSizes_append, hwf.size_eq]
      simp [sumSizes]
    · simpa using le_of_not_lt hcap
    · intro id hid
      rw [mem_keysOf_iff] at hid
      simp only [dlookup_dinsert] at hid
      by_cases hide : s.nextId = id
      · omega
      · rw [if_neg hide] at hid
        have := hwf.meta_lt id ((mem_keysOf_iff ..).2 hid)
        omega
    · intro id hid
      rw [mem_keysOf_iff] at hid
      simp only [dlookup_dinsert] at hid
      by_cases hide : s.nextId = id
      · omega
      · rw [if_neg hide] at hid
        have := hwf.seg_lt id ((mem_keysOf_iff ..).2 hid)
        omega
    · intro id md hmd
      simp only [dlookup_dinsert] at hmd
      by_cases hide : s.nextId = id
      · rw [if_pos hide] at hmd
        injection hmd with hmd
        rw [← hmd]
        exact hide
      · rw [if_neg hide] at hmd
        exact hwf.shm_id id md hmd
    · intro id
      simp only [mem_keysOf_iff, dlookup_dinsert]
      by_cases hide : s.nextId = id
      · simp [hide]
      · simp only [if_neg hide]
        simpa [mem_keysOf_iff] using hwf.sync id
    · rw [hM]
      have hgoal : (keysOf s.meta ++ [s.nextId]).Nodup := by
        rw [List.nodup_append]
        exact ⟨hwf.nodupM, List.nodup_singleton _, by simpa using hnM⟩
      simpa [keysOf] using hgoal
    · rw [hS]
      have hgoal : (keysOf s.segments ++ [s.nextId]).Nodup := by
        rw [List.nodup_append]
        exact ⟨hwf.nodupS, List.nodup_singleton _, by simpa using hnS⟩
      simpa [keysOf] using hgoal

theorem wf_update_record (s : Store) (obj_id : Nat) (md v : Record)
    (hmd : dlookup s.meta obj_id = some md) (hsz : v.size = md.size)
    (hshm : v.shm_name = md.shm_name) (hwf : WF s) (q : List Nat) :
    WF { s with meta := dinsert s.meta obj_id v, queue := q } := by
  have hkeys : keysOf (dinsert s.meta obj_id v) = keysOf s.meta :=
    keysOf_dinsert_mem s.meta obj_id v (by simp [hmd])
  constructor <;> dsimp only
  · rw [sumSizes_dinsert_same s.meta obj_id md v hmd hsz]
    exact hwf.size_eq
  · exact hwf.cap_le
  · intro id hid
    rw [hkeys] at hid
    exact hwf.meta_lt id hid
  · exact hwf.seg_lt
  · intro id md' hmd'
    simp only [dlookup_dinsert] at hmd'
    by_cases hide : obj_id = id
    · rw [if_pos hide] at hmd'
      injection hmd' with hmd'
      rw [← hmd', hshm, hwf.shm_id obj_id md hmd]
      exact hide
    · rw [if_neg hide] at hmd'
      exact hwf.shm_id id md' hmd'
  · intro id
    rw [hkeys]
    exact hwf.sync id
  · rw [hkeys]
    exact hwf.nodupM
  · exact hwf.nodupS

theorem wf_erase (s : Store) (obj_id : Nat) (md : Record)
    (hmd : dlookup s.meta obj_id = some md) (hwf : WF s) :
    WF { s with segments := derase s.segments md.shm_name,
                current_size := s.current_size - (md.size : Int),
                meta := derase s.meta obj_id } := by
  have hshm : md.shm_name = obj_id := hwf.shm_id obj_id md hmd
  have hsub : (keysOf (derase s.meta obj_id)).Sublist (keysOf s.meta) :=
    List.Sublist.map Prod.fst (derase_sublist s.meta obj_id)
  have hsubS : (keysOf (derase s.segments md.shm_name)).Sublist
      (keysOf s.segments) :=
    List.Sublist.map Prod.fst (derase_sublist s.segments md.shm_name)
  constructor <;> dsimp only
  · have := sumSizes_derase s.meta obj_id md hmd
    rw [hwf.size_eq, this]
    push_cast
    ring
  · have hnn : (0 : Int) ≤ (md.size : Int) := by positivity
    have := hwf.cap_le
    omega
  · intro id hid
    exact hwf.meta_lt id (hsub.mem hid)
  · intro id hid
    exact hwf.seg_lt id (hsubS.mem hid)
  · intro id md' hmd'
    by_cases hide : id = obj_id
    · subst hide
      rw [dlookup_derase_self s.meta id hwf.nodupM] at hmd'
      exact absurd hmd' (by simp)
    · rw [dlookup_derase_ne s.meta obj_id id (fun h => hide h.symm)] at hmd'
      exact hwf.shm_id id md' hmd'
  · intro id
    rw [hshm]
    rw [mem_keysOf_derase s.meta obj_id id hwf.nodupM,
        mem_keysOf_derase s.segments obj_id id hwf.nodupS]
    simp [hwf.sync id]
  · exact hwf.nodupM.sublist hsub
  · exact hwf.nodupS.sublist hsubS

theorem seal_wf (s : Store) (obj_id : Nat) (s' : Store) (hwf : WF s)
    (h : s.seal obj_id = .ok s') : WF s' := by
  rw [Store.seal] at h
  cases hmd : dlookup s.meta obj_id with
  | none => rw [hmd] at h; exact absurd h (by simp)
  | some md =>
    rw [hmd] at h
    injection h with h
    subst h
    exact wf_update_record s obj_id md { md with sealed := true } hmd rfl rfl
      hwf (s.queue ++ [obj_id])

theorem get_wf (s : Store) (obj_id : Nat) (buf : List Nat) (sz : Nat)
    (s' : Store) (hwf : WF s) (h : s.get obj_id = .ok (buf, sz, s')) :
    WF s' := by
  rw [Store.get] at h
  cases hmd : dlookup s.meta obj_id with
  | none => rw [hmd] at h; exact absurd h (by simp)
  | some md =>
    rw [hmd] at h
    dsimp only at h
    by_cases hs : md.sealed = false
    · rw [if_pos hs] at h
      exact absurd h (by simp)
    · rw [if_neg hs] at h
      cases hseg : dlookup s.segments md.shm_name with
      | none => rw [hseg] at h; exact absurd h (by simp)
      | some b =>
        rw [hseg] at h
        dsimp only at h
        simp only [Except.ok.injEq, Prod.mk.injEq] at h
        obtain ⟨-, -, h₃⟩ := h
        subst h₃
        have := wf_update_record s obj_id md
          { md with refcount := md.refcount + 1 } hmd rfl rfl hwf s.queue
        simpa using this

theorem delete_wf (s : Store) (obj_id : Nat) (s' : Store) (hwf : WF s)
    (h : s.delete obj_id = .ok s') : WF s' := by
  rw [Store.delete] at h
  cases hmd : dlookup s.meta obj_id with
  | none => rw [hmd] at h; exact absurd h (by simp)
  | some md =>
    rw [hmd] at h
    injection h with h
    subst h
    exact wf_erase s obj_id md hmd hwf

theorem release_wf (s : Store) (obj_id : Nat) (s' : Store) (hwf : WF s)
    (h : s.release obj_id = .ok s') : WF s' := by
  rw [Store.release] at h
  cases hmd : dlookup s.meta obj_id with
  | none => rw [hmd] at h; exact absurd h (by simp)
  | some md =>
    rw [hmd] at h
    dsimp only at h
    by_cases hrc : md.refcount - 1 ≤ 0
    · rw [if_pos hrc] at h
      injection h with h
      subst h
      exact wf_erase s obj_id md hmd hwf
    · rw [if_neg hrc] at h
      injection h with h
      subst h
      have := wf_update_record s obj_id md
        { md with refcount := md.refcount - 1 } hmd rfl rfl hwf s.queue
      simpa using this

theorem put_wf (s : Store) (data : List Nat) (obj_id : Nat) (s' : Store)
    (hwf : WF s) (h : s.put data = .ok (obj_id, s')) : WF s' := by
  rw [Store.put] at h
  cases hc : s.create data.length with
  | error e => rw [hc] at h; exact absurd h (by simp)
  | ok r =>
    obtain ⟨id₁, buf₁, s₁⟩ := r
    rw [hc] at h
    have hwf₁ : WF s₁ := create_wf s data.length id₁ buf₁ s₁ hwf hc
    have hmem : (dlookup s₁.segments id₁).isSome := by
      rw [Store.create] at hc
      split at hc
      · exact absurd hc (by simp)
      · simp only [Except.ok.injEq, Prod.mk.injEq] at hc
        obtain ⟨h₁, -, h₃⟩ := hc
        rw [← h₃]
        simp [dlookup_dinsert, h₁]
    have hwf₂ : WF { s₁ with segments := dinsert s₁.segments id₁ data } := by
      have hkeys : keysOf (dinsert s₁.segments id₁ data) = keysOf s₁.segments :=
        keysOf_dinsert_mem s₁.segments id₁ data hmem
      constructor <;> dsimp only
      · exact hwf₁.size_eq
      · exact hwf₁.cap_le
      · exact hwf₁.meta_lt
      · intro id hid
        rw [hkeys] at hid
        exact hwf₁.seg_lt id hid
      · exact hwf₁.shm_id
      · intro id
        rw [hkeys]
        exact hwf₁.sync id
      · exact hwf₁.nodupM
      · rw [hkeys]
        exact hwf₁.nodupS
    dsimp only at h
    cases hsl : Store.seal { s₁ with segments := dinsert s₁.segments id₁ data }
        id₁ with
    | error e => rw [hsl] at h; exact absurd h (by simp)
    | ok s₃ =>
      rw [hsl] at h
      dsimp only at h
      simp only [Except.ok.injEq, Prod.mk.injEq] at h
      obtain ⟨-, h₂⟩ := h
      subst h₂
      exact seal_wf _ id₁ s₃ hwf₂ hsl

theorem evictLoop_wf (l : List (Nat × Record)) :
    ∀ (s : Store) (bytes_freed num_bytes : Nat) (s' : Store), WF s →
      Store.evictLoop s bytes_freed num_bytes l = .ok s' → WF s' := by
  induction l with
  | nil =>
    intro s bytes_freed num_bytes s' hwf h
    rw [Store.evictLoop] at h
    injection h with h
    subst h
    exact hwf
  | cons p rest ih =>
    intro s bytes_freed num_bytes s' hwf h
    obtain ⟨obj_id, md⟩ := p
    rw [Store.evictLoop] at h
    by_cases hbf : bytes_freed ≥ num_bytes
    · rw [if_pos hbf] at h
      injection h with h
      subst h
      exact hwf
    · rw [if_neg hbf] at h
      cases hd : s.delete obj_id with
      | error e => rw [hd] at h; exact absurd h (by simp)
      | ok s₁ =>
        rw [hd] at h
        exact ih s₁ (bytes_freed + md.size) num_bytes s'
          (delete_wf s obj_id s₁ hwf hd) h

theorem evict_wf (s : Store) (num_bytes : Nat) (s' : Store) (hwf : WF s)
    (h : s.evict num_bytes = .ok s') : WF s' :=
  evictLoop_wf (evictable s) s 0 num_bytes s' hwf h

theorem applyAct_wf (s : Store) (a : Act) (s' : Store) (hwf : WF s)
    (h : applyAct s a = some s') : WF s' := by
  rcases a with size | data | i | i | i | i | n
  · simp only [applyAct] at h
    cases hc : s.create size with
    | error e => rw [hc] at h; exact absurd h (by simp)
    | ok r =>
      obtain ⟨id₁, buf₁, s₁⟩ := r
      rw [hc] at h
      dsimp only at h
      injection h with h
      subst h
      exact create_wf s size id₁ buf₁ s₁ hwf hc
  · simp only [applyAct] at h
    cases hc : s.put data with
    | error e => rw [hc] at h; exact absurd h (by simp)
    | ok r =>
      obtain ⟨id₁, s₁⟩ := r
      rw [hc] at h
      dsimp only at h
      injection h with h
      subst h
      exact put_wf s data id₁ s₁ hwf hc
  · simp only [applyAct] at h
    cases hc : s.seal i with
    | error e => rw [hc] at h; exact absurd h (by simp)
    | ok s₁ =>
      rw [hc] at h
      dsimp only at h
      injection h with h
      subst h
      exact seal_wf s i s₁ hwf hc
  · simp only [applyAct] at h
    cases hc : s.get i with
    | error e => rw [hc] at h; exact absurd h (by simp)
    | ok r =>
      obtain ⟨buf₁, sz₁, s₁⟩ := r
      rw [hc] at h
      dsimp only at h
      injection h with h
      subst h
      exact get_wf s i buf₁ sz₁ s₁ hwf hc
  · simp only [applyAct] at h
    cases hc : s.release i with
    | error e => rw [hc] at h; exact absurd h (by simp)
    | ok s₁ =>
      rw [hc] at h
      dsimp only at h
      injection h with h
      subst h
      exact release_wf s i s₁ hwf hc
  · simp only [applyAct] at h
    cases hc : s.delete i with
    | error e => rw [hc] at h; exact absurd h (by simp)
    | ok s₁ =>
      rw [hc] at h
      dsimp only at h
      injection h with h
      subst h
      exact delete_wf s i s₁ hwf hc
  · simp only [applyAct] at h
    cases hc : s.evict n with
    | error e => rw [hc] at h; exact absurd h (by simp)
    | ok s₁ =>
      rw [hc] at h
      dsimp only at h
      injection h with h
      subst h
      exact evict_wf s n s₁ hwf hc

theorem runActs_wf (acts : List Act) :
    ∀ (s s' : Store), WF s → runActs s acts = some s' → WF s' := by
  induction acts with
  | nil =>
    intro s s' hwf h
    rw [runActs] at h
    injection h with h
    subst h
    exact hwf
  | cons a rest ih =>
    intro s s' hwf h
    rw [runActs] at h
    cases hc : applyAct s a with
    | none => rw [hc] at h; exact absurd h (by simp)
    | some s₁ =>
      rw [hc] at h
      exact ih s₁ s' (applyAct_wf s a s₁ hwf hc) h

/-! ### Characterizing eviction -/

theorem evictable_perm (s : Store) :
    (evictable s).Perm
      (s.meta.filter (fun p => p.2.refcount == 1 && p.2.sealed)) :=
  List.perm_insertionSort byTime _

theorem evictable_mem (s : Store) (p : Nat × Record) :
    p ∈ evictable s ↔
      (p ∈ s.meta ∧ p.2.refcount = 1 ∧ p.2.sealed = true) := by
  rw [(evictable_perm s).mem_iff, List.mem_filter]
  simp

theorem evictable_nodup (s : Store) (hn : (keysOf s.meta).Nodup) :
    (keysOf (evictable s)).Nodup := by
  have h₁ : (keysOf (evictable s)).Perm
      (keysOf (s.meta.filter (fun p => p.2.refcount == 1 && p.2.sealed))) :=
    (evictable_perm s).map Prod.fst
  have h₂ : (keysOf (s.meta.filter
      (fun p => p.2.refcount == 1 && p.2.sealed))).Sublist (keysOf s.meta) :=
    List.Sublist.map Prod.fst (List.filter_sublist s.meta)
  exact h₁.nodup_iff.2 (hn.sublist h₂)

theorem evictable_sorted (s : Store) :
    List.Sorted byTime (evictable s) :=
  List.sorted_insertionSort byTime _

theorem evictable_lookup (s : Store) (hwf : WF s) (p : Nat × Record)
    (hp : p ∈ evictable s) : dlookup s.meta p.1 = some p.2 := by
  obtain ⟨q, r⟩ := p
  exact dlookup_of_mem s.meta q r hwf.nodupM ((evictable_mem s (q, r)).1 hp).1

theorem evictLoop_char (l : List (Nat × Record)) :
    ∀ (s : Store) (bytes_freed num_bytes : Nat) (s' : Store),
      Store.evictLoop s bytes_freed num_bytes l = .ok s' →
      (keysOf l).Nodup →
      (∀ p ∈ l, dlookup s.meta p.1 = some p.2) →
      (keysOf s.meta).Nodup →
      ∀ id, dlookup s'.meta id =
        if id ∈ specSelect l (num_bytes - bytes_freed) then none
        else dlookup s.meta id := by
  induction l with
  | nil =>
    intro s bytes_freed num_bytes s' h _ _ _ id
    rw [Store.evictLoop] at h
    injection h with h
    subst h
    simp [specSelect]
  | cons p rest ih =>
    intro s bytes_freed num_bytes s' h hnl hlook hnM id
    obtain ⟨id₀, md₀⟩ := p
    have hnl₀ : id₀ ∉ keysOf rest := by
      have : keysOf ((id₀, md₀) :: rest) = id₀ :: keysOf rest := rfl
      rw [this] at hnl
      exact (List.nodup_cons.1 hnl).1
    have hnlr : (keysOf rest).Nodup := by
      have : keysOf ((id₀, md₀) :: rest) = id₀ :: keysOf rest := rfl
      rw [this] at hnl
      exact (List.nodup_cons.1 hnl).2
    rw [Store.evictLoop] at h
    by_cases hbf : bytes_freed ≥ num_bytes
    · rw [if_pos hbf] at h
      injection h with h
      subst h
      have hz : num_bytes - bytes_freed = 0 := Nat.sub_eq_zero_of_le hbf
      simp [specSelect, hz]
    · rw [if_neg hbf] at h
      have hmd₀ : dlookup s.meta id₀ = some md₀ :=
        hlook (id₀, md₀) (List.mem_cons_self _ _)
      rw [Store.delete, hmd₀] at h
      dsimp only at h
      have hsel : specSelect ((id₀, md₀) :: rest) (num_bytes - bytes_freed) =
          id₀ :: specSelect rest (num_bytes - bytes_freed - md₀.size) := by
        rw [specSelect]
        rw [if_neg (by omega)]
      have hsub : num_bytes - (bytes_freed + md₀.size) =
          num_bytes - bytes_freed - md₀.size := by omega
      set s₁ : Store :=
        { s with segments := derase s.segments md₀.shm_name,
                 current_size := s.current_size - (md₀.size : Int),
                 meta := derase s.meta id₀ } with hs₁
      have hlook₁ : ∀ p ∈ rest, dlookup s₁.meta p.1 = some p.2 := by
        intro p hp
        have hne : id₀ ≠ p.1 := by
          intro hcon
          exact hnl₀ (hcon ▸ (List.mem_map_of_mem Prod.fst hp))
        rw [hs₁]
        dsimp only
        rw [dlookup_derase_ne s.meta id₀ p.1 hne]
        exact hlook p (List.mem_cons_of_mem _ hp)
      have hnM₁ : (keysOf s₁.meta).Nodup := by
        rw [hs₁]
        dsimp only
        exact hnM.sublist (List.Sublist.map Prod.fst (derase_sublist s.meta id₀))
      have ihz := ih s₁ (bytes_freed + md₀.size) num_bytes s' h hnlr hlook₁ hnM₁ id
      rw [hsub] at ihz
      rw [hsel]
      by_cases hid : id = id₀
      · subst hid
        rw [if_pos (List.mem_cons_self _ _), ihz]
        by_cases hmem : id ∈ specSelect rest (num_bytes - bytes_freed - md₀.size)
        · rw [if_pos hmem]
        · rw [if_neg hmem, hs₁]
          dsimp only
          exact dlookup_derase_self s.meta id hnM
      · have hmc : (id ∈ id₀ :: specSelect rest
            (num_bytes - bytes_freed - md₀.size)) ↔
            id ∈ specSelect rest (num_bytes - bytes_freed - md₀.size) := by
          simp [List.mem_cons, fun h => hid h]
        rw [ihz]
        by_cases hmem : id ∈ specSelect rest (num_bytes - bytes_freed - md₀.size)
        · rw [if_pos hmem, if_pos (hmc.2 hmem)]
        · rw [if_neg hmem, if_neg (fun hcon => hmem (hmc.1 hcon)), hs₁]
          dsimp only
          exact dlookup_derase_ne s.meta id₀ id (fun h => hid h.symm)

theorem evict_char (s : Store) (num_bytes : Nat) (s' : Store) (hwf : WF s)
    (h : s.evict num_bytes = .ok s') :
    ∀ id, dlookup s'.meta id =
      if id ∈ specSelect (evictable s) num_bytes then none
      else dlookup s.meta id := by
  intro id
  have := evictLoop_char (evictable s) s 0 num_bytes s' h
    (evictable_nodup s hwf.nodupM) (fun p hp => evictable_lookup s hwf p hp)
    hwf.nodupM id
  simpa using this

/-! ### Inversion of successful operations -/

theorem create_ok (s : Store) (size : Nat) (obj_id : Nat) (buf : List Nat)
    (s' : Store) (h : s.create size = .ok (obj_id, buf, s')) :
    ¬ (s.current_size + (size : Int) > (s.capacity : Int)) ∧
    obj_id = s.nextId ∧ buf = List.replicate size 0 ∧
    s' = { s with
      meta := dinsert s.meta s.nextId
        { shm_name := s.nextId, size := size, sealed := false,
          refcount := 1, created_at := s.clock },
      segments := dinsert s.segments s.nextId (List.replicate size 0),
      current_size := s.current_size + (size : Int),
      nextId := s.nextId + 1, clock := s.clock + 1 } := by
  rw [Store.create] at h
  split at h
  · exact absurd h (by simp)
  · next hcap =>
    simp only [Except.ok.injEq, Prod.mk.injEq] at h
    obtain ⟨h₁, h₂, h₃⟩ := h
    exact ⟨hcap, h₁.symm, h₂.symm, h₃.symm⟩

theorem seal_ok (s : Store) (obj_id : Nat) (s' : Store)
    (h : s.seal obj_id = .ok s') :
    ∃ md, dlookup s.meta obj_id = some md ∧
      s' = { s with meta := dinsert s.meta obj_id { md with sealed := true },
                    queue := s.queue ++ [obj_id] } := by
  rw [Store.seal] at h
  cases hmd : dlookup s.meta obj_id with
  | none => rw [hmd] at h; exact absurd h (by simp)
  | some md =>
    rw [hmd] at h
    dsimp only at h
    injection h with h
    exact ⟨md, rfl, h.symm⟩

theorem get_ok (s : Store) (obj_id : Nat) (buf : List Nat) (sz : Nat)
    (s' : Store) (h : s.get obj_id = .ok (buf, sz, s')) :
    ∃ md, dlookup s.meta obj_id = some md ∧ md.sealed = true ∧
      dlookup s.segments md.shm_name = some buf ∧ sz = md.size ∧
      s' = { s with meta := dinsert s.meta obj_id
                      ({ md with refcount := md.refcount + 1 }) } := by
  rw [Store.get] at h
  cases hmd : dlookup s.meta obj_id with
  | none => rw [hmd] at h; exact absurd h (by simp)
  | some md =>
    rw [hmd] at h
    dsimp only at h
    by_cases hs : md.sealed = false
    · rw [if_pos hs] at h
      exact absurd h (by simp)
    · rw [if_neg hs] at h
      cases hseg : dlookup s.segments md.shm_name with
      | none => rw [hseg] at h; exact absurd h (by simp)
      | some b =>
        rw [hseg] at h
        dsimp only at h
        simp only [Except.ok.injEq, Prod.mk.injEq] at h
        obtain ⟨h₁, h₂, h₃⟩ := h
        exact ⟨md, rfl, by simpa using hs, h₁ ▸ hseg, h₂.symm, h₃.symm⟩

theorem release_ok (s : Store) (obj_id : Nat) (s' : Store)
    (h : s.release obj_id = .ok s') :
    ∃ md, dlookup s.meta obj_id = some md ∧
      ((md.refcount ≤ 1 ∧
        s' = { s with segments := derase s.segments md.shm_name,
                      current_size := s.current_size - (md.size : Int),
                      meta := derase s.meta obj_id }) ∨
       (1 < md.refcount ∧
        s' = { s with meta := dinsert s.meta obj_id
                        ({ md with refcount := md.refcount - 1 }) })) := by
  rw [Store.release] at h
  cases hmd : dlookup s.meta obj_id with
  | none => rw [hmd] at h; exact absurd h (by simp)
  | some md =>
    rw [hmd] at h
    dsimp only at h
    by_cases hrc : md.refcount - 1 ≤ 0
    · rw [if_pos hrc] at h
      injection h with h
      exact ⟨md, rfl, Or.inl ⟨by omega, h.symm⟩⟩
    · rw [if_neg hrc] at h
      injection h with h
      exact ⟨md, rfl, Or.inr ⟨by omega, h.symm⟩⟩

theorem delete_ok (s : Store) (obj_id : Nat) (s' : Store)
    (h : s.delete obj_id = .ok s') :
    ∃ md, dlookup s.meta obj_id = some md ∧
      s' = { s with segments := derase s.segments md.shm_name,
                    current_size := s.current_size - (md.size : Int),
                    meta := derase s.meta obj_id } := by
  rw [Store.delete] at h
  cases hmd : dlookup s.meta obj_id with
  | none => rw [hmd] at h; exact absurd h (by simp)
  | some md =>
    rw [hmd] at h
    dsimp only at h
    injection h with h
    exact ⟨md, rfl, h.symm⟩

theorem put_ok (s : Store) (data : List Nat) (obj_id : Nat) (s' : Store)
    (h : s.put data = .ok (obj_id, s')) :
    ¬ (s.current_size + (data.length : Int) > (s.capacity : Int)) ∧
    obj_id = s.nextId ∧
    s' = { s with
      meta := dinsert (dinsert s.meta s.nextId
        ({ shm_name := s.nextId, size := data.length, sealed := false,
           refcount := 1, created_at := s.clock })) s.nextId
        ({ shm_name := s.nextId, size := data.length, sealed := true,
           refcount := 1, created_at := s.clock }),
      segments := dinsert (dinsert s.segments s.nextId
        (List.replicate data.length 0)) s.nextId data,
      current_size := s.current_size + (data.length : Int),
      nextId := s.nextId + 1, clock := s.clock + 1,
      queue := s.queue ++ [s.nextId] } := by
  rw [Store.put] at h
  cases hc : s.create data.length with
  | error e => rw [hc] at h; exact absurd h (by simp)
  | ok r =>
    obtain ⟨id₁, buf₁, s₁⟩ := r
    rw [hc] at h
    dsimp only at h
    obtain ⟨hcap, hid, hbuf, hs₁⟩ := create_ok s data.length id₁ buf₁ s₁ hc
    cases hsl : Store.seal
        { s₁ with segments := dinsert s₁.segments id₁ data } id₁ with
    | error e =>
      rw [hsl] at h
      exact absurd h (by simp)
    | ok s₃ =>
      rw [hsl] at h
      dsimp only at h
      simp only [Except.ok.injEq, Prod.mk.injEq] at h
      obtain ⟨h₁, h₂⟩ := h
      obtain ⟨md₁, hmd₁, hs₃⟩ := seal_ok _ id₁ s₃ hsl
      refine ⟨hcap, hid ▸ h₁.symm, ?_⟩
      rw [← h₂, hs₃, hs₁]
      dsimp only at hmd₁ ⊢
      rw [hs₁] at hmd₁
      dsimp only at hmd₁
      rw [hid] at hmd₁ ⊢
      rw [dlookup_dinsert_self] at hmd₁
      injection hmd₁ with hmd₁
      rw [← hmd₁]

/-- Any single successful operation leaves the `size`, `shm_name` and
`created_at` of an already-present record unchanged, and never resets a
`sealed=true` flag, whenever the record is still present afterwards. -/
theorem applyAct_fields (s : Store) (a : Act) (s' : Store) (hwf : WF s)
    (h : applyAct s a = some s') (id : Nat) (md md' : Record)
    (hmd : dlookup s.meta id = some md)
    (hmd' : dlookup s'.meta id = some md') :
    md'.size = md.size ∧ (md.sealed = true → md'.sealed = true) ∧
    md'.shm_name = md.shm_name ∧ md'.created_at = md.created_at := by
  have hlt : id < s.nextId :=
    hwf.meta_lt id ((mem_keysOf_iff ..).2 (by simp [hmd]))
  have hne : s.nextId ≠ id := by omega
  rcases a with size | data | i | i | i | i | n
  · simp only [applyAct] at h
    cases hc : s.create size with
    | error e => rw [hc] at h; exact absurd h (by simp)
    | ok r =>
      obtain ⟨id₁, buf₁, s₁⟩ := r
      rw [hc] at h
      injection h with h
      subst h
      obtain ⟨-, -, -, hs₁⟩ := create_ok s size id₁ buf₁ s₁ hc
      rw [hs₁] at hmd'
      dsimp only at hmd'
      rw [dlookup_dinsert_ne _ _ _ _ hne, hmd] at hmd'
      injection hmd' with hmd'
      rw [← hmd']
      exact ⟨rfl, fun hx => hx, rfl, rfl⟩
  · simp only [applyAct] at h
    cases hc : s.put data with
    | error e => rw [hc] at h; exact absurd h (by simp)
    | ok r =>
      obtain ⟨id₁, s₁⟩ := r
      rw [hc] at h
      injection h with h
      subst h
      obtain ⟨-, -, hs₁⟩ := put_ok s data id₁ s₁ hc
      rw [hs₁] at hmd'
      dsimp only at hmd'
      rw [dlookup_dinsert_ne _ _ _ _ hne, dlookup_dinsert_ne _ _ _ _ hne,
        hmd] at hmd'
      injection hmd' with hmd'
      rw [← hmd']
      exact ⟨rfl, fun hx => hx, rfl, rfl⟩
  · simp only [applyAct] at h
    cases hc : s.seal i with
    | error e => rw [hc] at h; exact absurd h (by simp)
    | ok s₁ =>
      rw [hc] at h
      injection h with h
      subst h
      obtain ⟨mdᵢ, hmdᵢ, hs₁⟩ := seal_ok s i s₁ hc
      rw [hs₁] at hmd'
      dsimp only at hmd'
      by_cases hii : i = id
      · subst hii
        rw [dlookup_dinsert_self] at hmd'
        rw [hmd] at hmdᵢ
        injection hmdᵢ with hmdᵢ
        injection hmd' with hmd'
        rw [← hmd', ← hmdᵢ]
        exact ⟨rfl, fun _ => rfl, rfl, rfl⟩
      · rw [dlookup_dinsert_ne _ _ _ _ hii, hmd] at hmd'
        injection hmd' with hmd'
        rw [← hmd']
        exact ⟨rfl, fun hx => hx, rfl, rfl⟩
  · simp only [applyAct] at h
    cases hc : s.get i with
    | error e => rw [hc] at h; exact absurd h (by simp)
    | ok r =>
      obtain ⟨buf₁, sz₁, s₁⟩ := r
      rw [hc] at h
      injection h with h
      subst h
      obtain ⟨mdᵢ, hmdᵢ, -, -, -, hs₁⟩ := get_ok s i buf₁ sz₁ s₁ hc
      rw [hs₁] at hmd'
      dsimp only at hmd'
      by_cases hii : i = id
      · subst hii
        rw [dlookup_dinsert_self] at hmd'
        rw [hmd] at hmdᵢ
        injection hmdᵢ with hmdᵢ
        injection hmd' with hmd'
        rw [← hmd', ← hmdᵢ]
        exact ⟨rfl, fun hx => hx, rfl, rfl⟩
      · rw [dlookup_dinsert_ne _ _ _ _ hii, hmd] at hmd'
        injection hmd' with hmd'
        rw [← hmd']
        exact ⟨rfl, fun hx => hx, rfl, rfl⟩
  · simp only [applyAct] at h
    cases hc : s.release i with
    | error e => rw [hc] at h; exact absurd h (by simp)
    | ok s₁ =>
      rw [hc] at h
      injection h with h
      subst h
      obtain ⟨mdᵢ, hmdᵢ, hcase⟩ := release_ok s i s₁ hc
      rcases hcase with ⟨-, hs₁⟩ | ⟨-, hs₁⟩
      · rw [hs₁] at hmd'
        dsimp only at hmd'
        by_cases hii : i = id
        · subst hii
          rw [dlookup_derase_self _ _ hwf.nodupM] at hmd'
          exact absurd hmd' (by simp)
        · rw [dlookup_derase_ne _ _ _ hii, hmd] at hmd'
          injection hmd' with hmd'
          rw [← hmd']
          exact ⟨rfl, fun hx => hx, rfl, rfl⟩
      · rw [hs₁] at hmd'
        dsimp only at hmd'
        by_cases hii : i = id
        · subst hii
          rw [dlookup_dinsert_self] at hmd'
          rw [hmd] at hmdᵢ
          injection hmdᵢ with hmdᵢ
          injection hmd' with hmd'
          rw [← hmd', ← hmdᵢ]
          exact ⟨rfl, fun hx => hx, rfl, rfl⟩
        · rw [dlookup_dinsert_ne _ _ _ _ hii, hmd] at hmd'
          injection hmd' with hmd'
          rw [← hmd']
          exact ⟨rfl, fun hx => hx, rfl, rfl⟩
  · simp only [applyAct] at h
    cases hc : s.delete i with
    | error e => rw [hc] at h; exact absurd h (by simp)
    | ok s₁ =>
      rw [hc] at h
      injection h with h
      subst h
      obtain ⟨mdᵢ, hmdᵢ, hs₁⟩ := delete_ok s i s₁ hc
      rw [hs₁] at hmd'
      dsimp only at hmd'
      by_cases hii : i = id
      · subst hii
        rw [dlookup_derase_self _ _ hwf.nodupM] at hmd'
        exact absurd hmd' (by simp)
      · rw [dlookup_derase_ne _ _ _ hii, hmd] at hmd'
        injection hmd' with hmd'
        rw [← hmd']
        exact ⟨rfl, fun hx => hx, rfl, rfl⟩
  · simp only [applyAct] at h
    cases hc : s.evict n with
    | error e => rw [hc] at h; exact absurd h (by simp)
    | ok s₁ =>
      rw [hc] at h
      injection h with h
      subst h
      have := evict_char s n s₁ hwf hc id
      rw [hmd'] at this
      by_cases hmem : id ∈ specSelect (evictable s) n
      · rw [if_pos hmem] at this
        exact absurd this (by simp)
      · rw [if_neg hmem] at this
        rw [← this] at hmd
        injection hmd with hmd
        rw [hmd]
        exact ⟨rfl, fun hx => hx, rfl, rfl⟩

/-! ### Failure on absent identifiers, and refcount traces -/

theorem get_absent (s : Store) (obj_id : Nat)
    (h : dlookup s.meta obj_id = none) :
    s.get obj_id = .error .notFound := by
  rw [Store.get, h]

theorem release_absent (s : Store) (obj_id : Nat)
    (h : dlookup s.meta obj_id = none) :
    s.release obj_id = .error .notFound := by
  rw [Store.release, h]

theorem seal_absent (s : Store) (obj_id : Nat)
    (h : dlookup s.meta obj_id = none) :
    s.seal obj_id = .error .notFound := by
  rw [Store.seal, h]

theorem delete_absent (s : Store) (obj_id : Nat)
    (h : dlookup s.meta obj_id = none) :
    s.delete obj_id = .error .notFound := by
  rw [Store.delete, h]

theorem info_absent (s : Store) (obj_id : Nat)
    (h : dlookup s.meta obj_id = none) :
    s.info obj_id = .error .notFound := by
  rw [Store.info, h]

theorem runRefOps_absent (s : Store) (obj_id : Nat)
    (hmd : dlookup s.meta obj_id = none) (ops : List RefOp) (s' : Store)
    (h : runRefOps s obj_id ops = some s') : ops = [] ∧ s' = s := by
  cases ops with
  | nil =>
    rw [runRefOps] at h
    injection h with h
    exact ⟨rfl, h.symm⟩
  | cons op rest =>
    exfalso
    cases op with
    | get =>
      rw [runRefOps, get_absent s obj_id hmd] at h
      exact absurd h (by simp)
    | release =>
      rw [runRefOps, release_absent s obj_id hmd] at h
      exact absurd h (by simp)

/-- Core refcount accounting over a trace of successful `get`/`release`
calls on one identifier: with `r` the current refcount, the record
survives with refcount `r + gets - releases` when that is positive, and
otherwise both the record and its segment are gone. -/
theorem runRefOps_count (ops : List RefOp) :
    ∀ (s : Store) (obj_id : Nat) (md : Record) (s' : Store), WF s →
      dlookup s.meta obj_id = some md → 1 ≤ md.refcount →
      runRefOps s obj_id ops = some s' →
      ((0 < (md.refcount : Int) + countGets ops - countReleases ops →
        ∃ md', dlookup s'.meta obj_id = some md' ∧
          (md'.refcount : Int) =
            (md.refcount : Int) + countGets ops - countReleases ops ∧
          md'.shm_name = md.shm_name) ∧
       ((md.refcount : Int) + countGets ops - countReleases ops ≤ 0 →
        dlookup s'.meta obj_id = none ∧
        dlookup s'.segments md.shm_name = none)) := by
  induction ops with
  | nil =>
    intro s obj_id md s' hwf hmd hrc h
    rw [runRefOps] at h
    injection h with h
    subst h
    constructor
    · intro hpos
      exact ⟨md, hmd, by simp [countGets, countReleases], rfl⟩
    · intro hneg
      simp [countGets, countReleases] at hneg
      omega
  | cons op rest ih =>
    intro s obj_id md s' hwf hmd hrc h
    cases op with
    | get =>
      rw [runRefOps] at h
      cases hg : s.get obj_id with
      | error e => rw [hg] at h; exact absurd h (by simp)
      | ok r =>
        obtain ⟨buf, sz, s₁⟩ := r
        rw [hg] at h
        obtain ⟨mdx, hmdx, -, -, -, hs₁⟩ := get_ok s obj_id buf sz s₁ hg
        rw [hmd] at hmdx
        injection hmdx with hmdx
        subst hmdx
        have hwf₁ := get_wf s obj_id buf sz s₁ hwf hg
        have hmd₁ : dlookup s₁.meta obj_id =
            some ({ md with refcount := md.refcount + 1 }) := by
          rw [hs₁]
          dsimp only
          exact dlookup_dinsert_self ..
        have ihz := ih s₁ obj_id ({ md with refcount := md.refcount + 1 })
          s' hwf₁ hmd₁ (by simp) h
        simp only [countGets, countReleases]
        constructor
        · intro hpos
          obtain ⟨md', hmd', hcnt, hshm⟩ := ihz.1 (by push_cast at hpos ⊢; omega)
          refine ⟨md', hmd', ?_, by simpa using hshm⟩
          push_cast at hcnt ⊢
          omega
        · intro hneg
          have := ihz.2 (by push_cast at hneg ⊢; omega)
          simpa using this
    | release =>
      rw [runRefOps] at h
      cases hg : s.release obj_id with
      | error e => rw [hg] at h; exact absurd h (by simp)
      | ok s₁ =>
        rw [hg] at h
        obtain ⟨mdx, hmdx, hcase⟩ := release_ok s obj_id s₁ hg
        rw [hmd] at hmdx
        injection hmdx with hmdx
        subst hmdx
        rcases hcase with ⟨hle, hs₁⟩ | ⟨hgt, hs₁⟩
        · have hrc1 : md.refcount = 1 := by omega
          have habs : dlookup s₁.meta obj_id = none := by
            rw [hs₁]
            dsimp only
            exact dlookup_derase_self _ _ hwf.nodupM
          obtain ⟨hrest, hs'⟩ := runRefOps_absent s₁ obj_id habs rest s' h
          subst hrest
          subst hs'
          simp only [countGets, countReleases]
          constructor
          · intro hpos
            simp [countGets, countReleases, hrc1] at hpos
          · intro hneg
            refine ⟨habs, ?_⟩
            rw [hs₁]
            dsimp only
            exact dlookup_derase_self _ _ hwf.nodupS
        · have hwf₁ := release_wf s obj_id s₁ hwf hg
          have hmd₁ : dlookup s₁.meta obj_id =
              some ({ md with refcount := md.refcount - 1 }) := by
            rw [hs₁]
            dsimp only
            exact dlookup_dinsert_self ..
          have ihz := ih s₁ obj_id ({ md with refcount := md.refcount - 1 })
            s' hwf₁ hmd₁ (by simp; omega) h
          simp only [countGets, countReleases]
          constructor
          · intro hpos
            obtain ⟨md', hmd', hcnt, hshm⟩ :=
              ihz.1 (by push_cast at hpos ⊢; omega)
            refine ⟨md', hmd', ?_, by simpa using hshm⟩
            push_cast at hcnt ⊢
            omega
          · intro hneg
            have := ihz.2 (by push_cast at hneg ⊢; omega)
            simpa using this

/-! ### Concrete states used to witness the theorems -/

/-- The record `put [1, 2, 3]` leaves behind in a fresh store. -/
def wRec : Record :=
  { shm_name := 0, size := 3, sealed := true, refcount := 1,
    created_at := 0 }

/-- The record `create 2` leaves behind in a fresh store (not sealed). -/
def wRecU : Record :=
  { shm_name := 0, size := 2, sealed := false, refcount := 1,
    created_at := 0 }

/-- State of a fresh store with capacity 100 after `put [1, 2, 3]`. -/
def wStore : Store :=
  { meta := [(0, wRec)], segments := [(0, [1, 2, 3])], capacity := 100,
    current_size := 3, nextId := 1, clock := 1, queue := [0] }

/-- State of a fresh store with capacity 100 after `create 2`. -/
def wStoreU : Store :=
  { meta := [(0, wRecU)], segments := [(0, [0, 0])], capacity := 100,
    current_size := 2, nextId := 1, clock := 1, queue := [] }

/-- `wStore` after its only object has been removed again. -/
def wDrained : Store :=
  { meta := [], segments := [], capacity := 100, current_size := 0,
    nextId := 1, clock := 1, queue := [0] }

/-- `wStore` after a redundant second `seal 0`: the flag stays `true` and
one more notification is queued. -/
def wSealedTwice : Store :=
  { meta := [(0, wRec)], segments := [(0, [1, 2, 3])], capacity := 100,
    current_size := 3, nextId := 1, clock := 1, queue := [0, 0] }

/-- `wStore` after one `get 0` (refcount bumped to 2). -/
def wGot : Store :=
  { meta := [(0, { shm_name := 0, size := 3, sealed := true, refcount := 2,
                   created_at := 0 })],
    segments := [(0, [1, 2, 3])], capacity := 100, current_size := 3,
    nextId := 1, clock := 1, queue := [0] }

theorem wStore_run :
    runActs (freshStore 100) [Act.put [1, 2, 3]] = some wStore := by
  decide

theorem wStore_wf : WF wStore :=
  runActs_wf [Act.put [1, 2, 3]] (freshStore 100) wStore
    (freshStore_wf 100) wStore_run

theorem wStoreU_run :
    runActs (freshStore 100) [Act.create 2] = some wStoreU := by
  decide

theorem wStoreU_wf : WF wStoreU :=
  runActs_wf [Act.create 2] (freshStore 100) wStoreU
    (freshStore_wf 100) wStoreU_run

/-- Evaluation of the spec scenario: three sealed, unreferenced objects
of sizes 5, 5, 5 created in order 0, 1, 2 under capacity 30, then
`evict 10`; the result records which of the three are still present. -/
def evictDemo : Option (Bool × Bool × Bool) :=
  match runActs (freshStore 30)
      [Act.put [1, 1, 1, 1, 1], Act.put [2, 2, 2, 2, 2],
       Act.put [3, 3, 3, 3, 3]] with
  | none => none
  | some t =>
    match t.evict 10 with
    | .error _ => none
    | .ok u => some (u.contains 0, u.contains 1, u.contains 2)

theorem wf_fresh_meta (s : Store) (hwf : WF s) :
    dlookup s.meta s.nextId = none := by
  cases hl : dlookup s.meta s.nextId with
  | none => rfl
  | some v =>
    have := hwf.meta_lt s.nextId ((mem_keysOf_iff ..).2 (by simp [hl]))
    omega

/-! ### The claims -/

/-- C1: for every byte payload `b`, if `put(b)` succeeds and returns
identifier `id`, then `get(id)` succeeds, the size recorded for `id` is
`len(b)`, `get` returns that size, and the first `size` bytes of the
returned buffer equal `b` — for all payloads, including the empty one. -/
theorem C1_put_get_roundtrip (s : Store) (b : List Nat) (obj_id : Nat)
    (s' : Store) (h : s.put b = .ok (obj_id, s')) :
    ∃ buf s'', s'.get obj_id = .ok (buf, b.length, s'') ∧
      buf.take b.length = b ∧
      ∃ md, dlookup s'.meta obj_id = some md ∧ md.size = b.length := by
  obtain ⟨hcap, hid, hs'⟩ := put_ok s b obj_id s' h
  subst hid
  have hmd : dlookup s'.meta s.nextId = some
      ({ shm_name := s.nextId, size := b.length, sealed := true,
         refcount := 1, created_at := s.clock }) := by
    rw [hs']
    dsimp only
    exact dlookup_dinsert_self ..
  have hseg : dlookup s'.segments s.nextId = some b := by
    rw [hs']
    dsimp only
    exact dlookup_dinsert_self ..
  refine ⟨b, { s' with meta := dinsert s'.meta s.nextId
                         ({ shm_name := s.nextId, size := b.length,
                            sealed := true, refcount := 2,
                            created_at := s.clock }) }, ?_, by simp,
    ⟨_, hmd, rfl⟩⟩
  rw [Store.get, hmd]
  dsimp only
  rw [if_neg (by simp), hseg]

/-- C10: after every sequence of successful operations starting from a
fresh store, the tracked `_current_size` equals the sum of the `size`
fields of all records currently in the table; in particular the counter
is never negative. -/
theorem C10_size_accounting (capacity : Nat) (acts : List Act) (s' : Store)
    (h : runActs (freshStore capacity) acts = some s') :
    s'.current_size = (sumSizes s'.meta : Int) ∧ 0 ≤ s'.current_size := by
  have hwf := runActs_wf acts (freshStore capacity) s'
    (freshStore_wf capacity) h
  refine ⟨hwf.size_eq, ?_⟩
  rw [hwf.size_eq]
  positivity

/-- Witness for C1: `put [1, 2, 3]` on a fresh store of capacity 100
succeeds with identifier 0, and the subsequent `get 0` round-trips. -/
theorem C1_put_get_roundtrip_witness :
    ∃ buf s'', wStore.get 0 = .ok (buf, 3, s'') ∧
      buf.take 3 = [1, 2, 3] ∧
      ∃ md, dlookup wStore.meta 0 = some md ∧ md.size = 3 :=
  C1_put_get_roundtrip (freshStore 100) [1, 2, 3] 0 wStore (by rfl)

/-- Witness for C10: the accounting identity evaluated after
`put [1, 2, 3]` on a fresh store of capacity 100. -/
theorem C10_size_accounting_witness :
    wStore.current_size = (sumSizes wStore.meta : Int) ∧
    0 ≤ wStore.current_size :=
  C10_size_accounting 100 [Act.put [1, 2, 3]] wStore wStore_run

theorem evictLoop_capacity (l : List (Nat × Record)) :
    ∀ (s : Store) (bytes_freed num_bytes : Nat) (s' : Store),
      Store.evictLoop s bytes_freed num_bytes l = .ok s' →
      s'.capacity = s.capacity := by
  induction l with
  | nil =>
    intro s b n s' h
    rw [Store.evictLoop] at h
    injection h with h
    rw [← h]
  | cons p rest ih =>
    intro s b n s' h
    obtain ⟨obj_id, md⟩ := p
    rw [Store.evictLoop] at h
    by_cases hbf : b ≥ n
    · rw [if_pos hbf] at h
      injection h with h
      rw [← h]
    · rw [if_neg hbf] at h
      cases hd : s.delete obj_id with
      | error e => rw [hd] at h; exact absurd h (by simp)
      | ok s₁ =>
        rw [hd] at h
        obtain ⟨mdx, -, hs₁⟩ := delete_ok s obj_id s₁ hd
        rw [ih s₁ _ _ s' h, hs₁]

theorem applyAct_capacity (s : Store) (a : Act) (s' : Store)
    (h : applyAct s a = some s') : s'.capacity = s.capacity := by
  rcases a with size | data | i | i | i | i | n
  · simp only [applyAct] at h
    cases hc : s.create size with
    | error e => rw [hc] at h; exact absurd h (by simp)
    | ok r =>
      obtain ⟨id₁, buf₁, s₁⟩ := r
      rw [hc] at h
      injection h with h
      subst h
      obtain ⟨-, -, -, hs₁⟩ := create_ok s size id₁ buf₁ s₁ hc
      rw [hs₁]
  · simp only [applyAct] at h
    cases hc : s.put data with
    | error e => rw [hc] at h; exact absurd h (by simp)
    | ok r =>
      obtain ⟨id₁, s₁⟩ := r
      rw [hc] at h
      injection h with h
      subst h
      obtain ⟨-, -, hs₁⟩ := put_ok s data id₁ s₁ hc
      rw [hs₁]
  · simp only [applyAct] at h
    cases hc : s.seal i with
    | error e => rw [hc] at h; exact absurd h (by simp)
    | ok s₁ =>
      rw [hc] at h
      injection h with h
      subst h
      obtain ⟨mdx, -, hs₁⟩ := seal_ok s i s₁ hc
      rw [hs₁]
  · simp only [applyAct] at h
    cases hc : s.get i with
    | error e => rw [hc] at h; exact absurd h (by simp)
    | ok r =>
      obtain ⟨buf₁, sz₁, s₁⟩ := r
      rw [hc] at h
      injection h with h
      subst h
      obtain ⟨mdx, -, -, -, -, hs₁⟩ := get_ok s i buf₁ sz₁ s₁ hc
      rw [hs₁]
  · simp only [applyAct] at h
    cases hc : s.release i with
    | error e => rw [hc] at h; exact absurd h (by simp)
    | ok s₁ =>
      rw [hc] at h
      injection h with h
      subst h
      obtain ⟨mdx, -, hcase⟩ := release_ok s i s₁ hc
      rcases hcase with ⟨-, hs₁⟩ | ⟨-, hs₁⟩ <;> rw [hs₁]
  · simp only [applyAct] at h
    cases hc : s.delete i with
    | error e => rw [hc] at h; exact absurd h (by simp)
    | ok s₁ =>
      rw [hc] at h
      injection h with h
      subst h
      obtain ⟨mdx, -, hs₁⟩ := delete_ok s i s₁ hc
      rw [hs₁]
  · simp only [applyAct] at h
    cases hc : s.evict n with
    | error e => rw [hc] at h; exact absurd h (by simp)
    | ok s₁ =>
      rw [hc] at h
      injection h with h
      subst h
      exact evictLoop_capacity (evictable s) s 0 n s₁ hc

theorem runActs_capacity (acts : List Act) :
    ∀ (s s' : Store), runActs s acts = some s' →
      s'.capacity = s.capacity := by
  induction acts with
  | nil =>
    intro s s' h
    rw [runActs] at h
    injection h with h
    rw [← h]
  | cons a rest ih =>
    intro s s' h
    rw [runActs] at h
    cases hc : applyAct s a with
    | none => rw [hc] at h; exact absurd h (by simp)
    | some s₁ =>
      rw [hc] at h
      rw [ih s₁ s' h, applyAct_capacity s a s₁ hc]

/-- C3: `get` and `release` fail `notFound` on an absent identifier;
`get` on a present but unsealed record fails `notSealed` (returning no
new state, so the record is untouched); `get` on a present sealed record
whose segment is live succeeds, returns the recorded size, and bumps
that record's refcount by exactly one. -/
theorem C3_get_release_status :
    (∀ (s : Store) (obj_id : Nat), dlookup s.meta obj_id = none →
      s.get obj_id = .error .notFound ∧
      s.release obj_id = .error .notFound) ∧
    (∀ (s : Store) (obj_id : Nat) (md : Record),
      dlookup s.meta obj_id = some md → md.sealed = false →
      s.get obj_id = .error .notSealed) ∧
    (∀ (s : Store) (obj_id : Nat) (md : Record),
      dlookup s.meta obj_id = some md → md.sealed = true →
      (dlookup s.segments md.shm_name).isSome →
      ∃ buf s', s.get obj_id = .ok (buf, md.size, s') ∧
        dlookup s'.meta obj_id =
          some ({ md with refcount := md.refcount + 1 })) := by
  refine ⟨?_, ?_, ?_⟩
  · intro s obj_id h
    exact ⟨get_absent s obj_id h, release_absent s obj_id h⟩
  · intro s obj_id md hmd hsl
    rw [Store.get, hmd]
    dsimp only
    rw [if_pos hsl]
  · intro s obj_id md hmd hsl hseg
    cases hb : dlookup s.segments md.shm_name with
    | none => rw [hb] at hseg; exact absurd hseg (by simp)
    | some buf =>
      refine ⟨buf, { s with meta := dinsert s.meta obj_id
                              ({ md with refcount := md.refcount + 1 }) },
        ?_, dlookup_dinsert_self ..⟩
      rw [Store.get, hmd]
      dsimp only
      rw [if_neg (by simp [hsl]), hb]

/-- C4: `create(size)` fails `capacityExceeded` exactly when
`current_size + size > capacity` (and that is its only failure);
otherwise it succeeds and adds `size` to `current_size`; consequently,
after any sequence of successful operations from a fresh store, the sum
of the recorded sizes never exceeds the configured capacity. -/
theorem C4_capacity_enforcement :
    (∀ (s : Store) (size : Nat),
      s.create size = .error .capacityExceeded ↔
        s.current_size + (size : Int) > (s.capacity : Int)) ∧
    (∀ (s : Store) (size : Nat),
      ¬ (s.current_size + (size : Int) > (s.capacity : Int)) →
      ∃ obj_id buf s', s.create size = .ok (obj_id, buf, s') ∧
        s'.current_size = s.current_size + (size : Int)) ∧
    (∀ (capacity : Nat) (acts : List Act) (s' : Store),
      runActs (freshStore capacity) acts = some s' →
      sumSizes s'.meta ≤ capacity) := by
  refine ⟨?_, ?_, ?_⟩
  · intro s size
    by_cases hcap : s.current_size + (size : Int) > (s.capacity : Int)
    · simp [Store.create, hcap]
    · simp [Store.create, hcap]
  · intro s size hcap
    refine ⟨s.nextId, List.replicate size 0,
      { s with meta := dinsert s.meta s.nextId
                         ({ shm_name := s.nextId, size := size,
                            sealed := false, refcount := 1,
                            created_at := s.clock }),
               segments := dinsert s.segments s.nextId
                             (List.replicate size 0),
               current_size := s.current_size + (size : Int),
               nextId := s.nextId + 1, clock := s.clock + 1 }, ?_, rfl⟩
    rw [Store.create, if_neg hcap]
  · intro capacity acts s' h
    have hwf := runActs_wf acts (freshStore capacity) s'
      (freshStore_wf capacity) h
    have h₁ := hwf.size_eq
    have h₂ := hwf.cap_le
    rw [h₁] at h₂
    have h₃ : s'.capacity = capacity :=
      runActs_capacity acts (freshStore capacity) s' h
    rw [h₃] at h₂
    exact_mod_cast h₂

/-- C6: `delete` on a present identifier succeeds whatever the refcount
is, after which `contains` is false and `get`/`info` fail `notFound`;
`delete` on an absent identifier fails `notFound`. -/
theorem C6_delete_semantics :
    (∀ (s : Store) (obj_id : Nat) (md : Record),
      dlookup s.meta obj_id = some md → (keysOf s.meta).Nodup →
      ∃ s', s.delete obj_id = .ok s' ∧ s'.contains obj_id = false ∧
        s'.get obj_id = .error .notFound ∧
        s'.info obj_id = .error .notFound) ∧
    (∀ (s : Store) (obj_id : Nat), dlookup s.meta obj_id = none →
      s.delete obj_id = .error .notFound) := by
  refine ⟨?_, ?_⟩
  · intro s obj_id md hmd hn
    have habs : dlookup (derase s.meta obj_id) obj_id = none :=
      dlookup_derase_self s.meta obj_id hn
    refine ⟨{ s with segments := derase s.segments md.shm_name,
                     current_size := s.current_size - (md.size : Int),
                     meta := derase s.meta obj_id }, ?_, ?_, ?_, ?_⟩
    · rw [Store.delete, hmd]
    · simp [Store.contains, habs]
    · exact get_absent _ _ habs
    · exact info_absent _ _ habs
  · exact delete_absent

/-- Witness for C3: all three clauses evaluated on `put [1, 2, 3]` and
`create 2` states — identifier 5 is absent, object 0 of `wStoreU` is
unsealed, object 0 of `wStore` is sealed with a live segment. -/
theorem C3_get_release_status_witness :
    (wStore.get 5 = .error .notFound ∧
     wStore.release 5 = .error .notFound) ∧
    wStoreU.get 0 = .error .notSealed ∧
    (∃ buf s', wStore.get 0 = .ok (buf, 3, s') ∧
      dlookup s'.meta 0 = some ({ wRec with refcount := 2 })) := by
  refine ⟨C3_get_release_status.1 wStore 5 (by decide),
    C3_get_release_status.2.1 wStoreU 0 wRecU (by decide) (by decide), ?_⟩
  exact C3_get_release_status.2.2 wStore 0 wRec (by decide) (by decide)
    (by decide)

/-- Witness for C4: `create 20` on an empty capacity-10 store is exactly
a capacity failure, `create 4` on a fresh capacity-100 store succeeds
and accounts 4 bytes, and the store reached by `put [1, 2, 3]` keeps its
total within capacity 100. -/
theorem C4_capacity_enforcement_witness :
    ((freshStore 10).create 20 = .error .capacityExceeded ↔
      (freshStore 10).current_size + (20 : Int) >
        ((freshStore 10).capacity : Int)) ∧
    (∃ obj_id buf s', (freshStore 100).create 4 = .ok (obj_id, buf, s') ∧
      s'.current_size = (freshStore 100).current_size + (4 : Int)) ∧
    sumSizes wStore.meta ≤ 100 :=
  ⟨C4_capacity_enforcement.1 (freshStore 10) 20,
   C4_capacity_enforcement.2.1 (freshStore 100) 4 (by decide),
   C4_capacity_enforcement.2.2 100 [Act.put [1, 2, 3]] wStore wStore_run⟩

/-- Witness for C6: deleting the present object 0 of `wStore` (refcount
1, but the clause holds for any refcount) and deleting the absent
identifier 5. -/
theorem C6_delete_semantics_witness :
    (∃ s', wStore.delete 0 = .ok s' ∧ s'.contains 0 = false ∧
      s'.get 0 = .error .notFound ∧ s'.info 0 = .error .notFound) ∧
    wStore.delete 5 = .error .notFound :=
  ⟨C6_delete_semantics.1 wStore 0 wRec (by decide) (by decide),
   C6_delete_semantics.2 wStore 5 (by decide)⟩

/-- C7: `seal` fails `notFound` on an absent identifier; on a present
identifier (sealed or not) it succeeds, writes the record back with
`sealed := true` — so a repeated `seal` leaves the flag `true` — and
appends exactly one notification entry per call, redundant calls
included; and no successful operation ever resets a `sealed=true` flag
of a record that remains present. -/
theorem C7_seal_semantics :
    (∀ (s : Store) (obj_id : Nat), dlookup s.meta obj_id = none →
      s.seal obj_id = .error .notFound) ∧
    (∀ (s : Store) (obj_id : Nat) (md : Record),
      dlookup s.meta obj_id = some md →
      ∃ s', s.seal obj_id = .ok s' ∧
        dlookup s'.meta obj_id = some ({ md with sealed := true }) ∧
        s'.queue = s.queue ++ [obj_id]) ∧
    (∀ (s : Store) (a : Act) (s' : Store), WF s →
      applyAct s a = some s' →
      ∀ (id : Nat) (md md' : Record), dlookup s.meta id = some md →
        dlookup s'.meta id = some md' → md.sealed = true →
        md'.sealed = true) := by
  refine ⟨seal_absent, ?_, ?_⟩
  · intro s obj_id md hmd
    refine ⟨{ s with
        meta := dinsert s.meta obj_id ({ md with sealed := true }),
        queue := s.queue ++ [obj_id] },
      ?_, dlookup_dinsert_self .., rfl⟩
    rw [Store.seal, hmd]
  · intro s a s' hwf h id md md' hmd hmd' hsl
    exact (applyAct_fields s a s' hwf h id md md' hmd hmd').2.1 hsl

/-- C8: with a non-empty queue `get_notification` pops and returns the
oldest entry (`pop(0)`, FIFO); with an empty queue the timeout fires and
it returns `none`; and each successful `seal` appends its identifier at
the back of the queue, so identifiers come out in seal order. -/
theorem C8_notification_fifo :
    (∀ (s : Store) (x : Nat) (rest : List Nat), s.queue = x :: rest →
      s.getNotification = (some x, { s with queue := rest })) ∧
    (∀ s : Store, s.queue = [] → s.getNotification = (none, s)) ∧
    (∀ (s : Store) (obj_id : Nat) (s' : Store), s.seal obj_id = .ok s' →
      s'.queue = s.queue ++ [obj_id]) := by
  refine ⟨?_, ?_, ?_⟩
  · intro s x rest hq
    rw [Store.getNotification, hq]
  · intro s hq
    rw [Store.getNotification, hq]
  · intro s obj_id s' h
    obtain ⟨md, -, hs'⟩ := seal_ok s obj_id s' h
    rw [hs']

/-- C9: when capacity admits it, `create(size)` succeeds on a
well-formed store with a fresh identifier absent from the table, a
zero-initialized buffer of exactly `size` bytes backing a new segment,
and a record with `sealed=false`, `refcount=1`, the given size and the
creation timestamp; and no subsequent successful operation ever changes
the recorded size of a surviving record. -/
theorem C9_create_semantics :
    (∀ (s : Store) (size : Nat), WF s →
      ¬ (s.current_size + (size : Int) > (s.capacity : Int)) →
      ∃ obj_id buf s', s.create size = .ok (obj_id, buf, s') ∧
        dlookup s.meta obj_id = none ∧
        buf = List.replicate size 0 ∧ buf.length = size ∧
        dlookup s'.segments obj_id = some buf ∧
        dlookup s'.meta obj_id = some
          ({ shm_name := obj_id, size := size, sealed := false,
             refcount := 1, created_at := s.clock })) ∧
    (∀ (s : Store) (a : Act) (s' : Store), WF s →
      applyAct s a = some s' →
      ∀ (id : Nat) (md md' : Record), dlookup s.meta id = some md →
        dlookup s'.meta id = some md' → md'.size = md.size) := by
  refine ⟨?_, ?_⟩
  · intro s size hwf hcap
    refine ⟨s.nextId, List.replicate size 0,
      { s with meta := dinsert s.meta s.nextId
                         ({ shm_name := s.nextId, size := size,
                            sealed := false, refcount := 1,
                            created_at := s.clock }),
               segments := dinsert s.segments s.nextId
                             (List.replicate size 0),
               current_size := s.current_size + (size : Int),
               nextId := s.nextId + 1, clock := s.clock + 1 },
      ?_, wf_fresh_meta s hwf, rfl, by simp, dlookup_dinsert_self ..,
      dlookup_dinsert_self ..⟩
    rw [Store.create, if_neg hcap]
  · intro s a s' hwf h id md md' hmd hmd'
    exact (applyAct_fields s a s' hwf h id md md' hmd hmd').1

/-- Witness for C7: sealing absent identifier 5 of `wStore` fails;
re-sealing the already-sealed object 0 keeps `sealed=true` and enqueues
one more notification; and a `get 0` step preserves the sealed flag. -/
theorem C7_seal_semantics_witness :
    wStore.seal 5 = .error .notFound ∧
    (∃ s', wStore.seal 0 = .ok s' ∧
      dlookup s'.meta 0 = some ({ wRec with sealed := true }) ∧
      s'.queue = wStore.queue ++ [0]) ∧
    ({ wRec with refcount := 2 } : Record).sealed = true := by
  refine ⟨C7_seal_semantics.1 wStore 5 (by decide),
    C7_seal_semantics.2.1 wStore 0 wRec (by decide), ?_⟩
  exact C7_seal_semantics.2.2 wStore (Act.get 0) wGot wStore_wf (by decide)
    0 wRec ({ wRec with refcount := 2 }) (by decide) (by decide) (by decide)

/-- Witness for C8: `wStore` has queue `[0]`, so `get_notification`
returns 0 and leaves the queue empty; a fresh store times out; sealing
object 0 of `wStore` appends one entry. -/
theorem C8_notification_fifo_witness :
    wStore.getNotification = (some 0, { wStore with queue := [] }) ∧
    (freshStore 100).getNotification = (none, freshStore 100) ∧
    wSealedTwice.queue = wStore.queue ++ [0] := by
  refine ⟨C8_notification_fifo.1 wStore 0 [] (by decide),
    C8_notification_fifo.2.1 (freshStore 100) (by decide), ?_⟩
  exact C8_notification_fifo.2.2 wStore 0 wSealedTwice (by rfl)

/-- Witness for C9: `create 4` on a fresh capacity-100 store, and a
`get 0` step on `wStore` leaving the recorded size at 3. -/
theorem C9_create_semantics_witness :
    (∃ obj_id buf s',
      (freshStore 100).create 4 = .ok (obj_id, buf, s') ∧
      dlookup (freshStore 100).meta obj_id = none ∧
      buf = List.replicate 4 0 ∧ buf.length = 4 ∧
      dlookup s'.segments obj_id = some buf ∧
      dlookup s'.meta obj_id = some
        ({ shm_name := obj_id, size := 4, sealed := false,
           refcount := 1, created_at := (freshStore 100).clock })) ∧
    ({ wRec with refcount := 2 } : Record).size = wRec.size := by
  refine ⟨?_, ?_⟩
  · have := C9_create_semantics.1 (freshStore 100) 4 (freshStore_wf 100)
      (by decide)
    simpa using this
  · exact C9_create_semantics.2 wStore (Act.get 0) wGot wStore_wf
      (by decide) 0 wRec ({ wRec with refcount := 2 }) (by decide)
      (by decide)

/-- C2: starting from a record with `refcount = 1` (as `create` and
`put` leave it) and running any trace of successful `get`/`release`
calls on that identifier with no `delete`, the identifier is present in
the table iff `1 + gets - releases > 0`; once the count is not positive
the record and its backing segment are gone and a later `get` fails
`notFound` — the object is never resurrected. -/
theorem C2_refcount_lifecycle (s : Store) (obj_id : Nat) (md : Record)
    (ops : List RefOp) (s' : Store) (hwf : WF s)
    (hmd : dlookup s.meta obj_id = some md) (hrc : md.refcount = 1)
    (h : runRefOps s obj_id ops = some s') :
    ((dlookup s'.meta obj_id).isSome ↔
      0 < 1 + (countGets ops : Int) - countReleases ops) ∧
    (¬ (0 < 1 + (countGets ops : Int) - countReleases ops) →
      dlookup s'.meta obj_id = none ∧
      dlookup s'.segments md.shm_name = none ∧
      s'.get obj_id = .error .notFound) := by
  have hcnt := runRefOps_count ops s obj_id md s' hwf hmd (by omega) h
  rw [hrc] at hcnt
  constructor
  · constructor
    · intro hsome
      by_contra hneg
      have habs := (hcnt.2 (by push_cast at hneg ⊢; omega)).1
      rw [habs] at hsome
      simp at hsome
    · intro hpos
      obtain ⟨md', hmd', -, -⟩ := hcnt.1 (by push_cast at hpos ⊢; omega)
      simp [hmd']
  · intro hneg
    obtain ⟨h₁, h₂⟩ := hcnt.2 (by push_cast at hneg ⊢; omega)
    exact ⟨h₁, h₂, get_absent s' obj_id h₁⟩

/-- C5: a successful `evict(target)` removes exactly the greedy
oldest-first prefix of the sealed, refcount-1 snapshot whose running
freed total stays below the target (so only eligible records are
deleted, oldest first, stopping at the target); the snapshot holds
precisely the sealed refcount-1 records sorted ascending by creation
time; and in the concrete scenario of three size-5 sealed unreferenced
objects created in order 0, 1, 2, `evict 10` removes exactly 0 and 1
and keeps 2. -/
theorem C5_evict_policy :
    (∀ (s : Store) (num_bytes : Nat) (s' : Store), WF s →
      s.evict num_bytes = .ok s' →
      ∀ id, dlookup s'.meta id =
        if id ∈ specSelect (evictable s) num_bytes then none
        else dlookup s.meta id) ∧
    (∀ s : Store,
      (∀ p ∈ evictable s,
        p.2.sealed = true ∧ p.2.refcount = 1 ∧ p ∈ s.meta) ∧
      (∀ p ∈ s.meta, p.2.sealed = true → p.2.refcount = 1 →
        p ∈ evictable s) ∧
      List.Sorted byTime (evictable s)) ∧
    evictDemo = some (false, false, true) := by
  refine ⟨evict_char, ?_, by decide⟩
  intro s
  refine ⟨?_, ?_, evictable_sorted s⟩
  · intro p hp
    obtain ⟨hmem, hrc, hsl⟩ := (evictable_mem s p).1 hp
    exact ⟨hsl, hrc, hmem⟩
  · intro p hp hsl hrc
    exact (evictable_mem s p).2 ⟨hp, hrc, hsl⟩

/-- Witness for C2: the trace `get; release; release` on object 0 of
`wStore` has count `1 + 1 - 2 = 0`, so the object is gone afterwards. -/
theorem C2_refcount_lifecycle_witness :
    ((dlookup wDrained.meta 0).isSome ↔
      0 < 1 + (countGets [RefOp.get, RefOp.release, RefOp.release] : Int) -
        countReleases [RefOp.get, RefOp.release, RefOp.release]) ∧
    (¬ (0 < 1 +
        (countGets [RefOp.get, RefOp.release, RefOp.release] : Int) -
        countReleases [RefOp.get, RefOp.release, RefOp.release]) →
      dlookup wDrained.meta 0 = none ∧
      dlookup wDrained.segments wRec.shm_name = none ∧
      wDrained.get 0 = .error .notFound) :=
  C2_refcount_lifecycle wStore 0 wRec
    [RefOp.get, RefOp.release, RefOp.release] wDrained wStore_wf
    (by decide) (by decide) (by decide)

/-- Witness for C5: evicting 10 bytes from `wStore` (one sealed
refcount-1 object of size 3) removes object 0 as the greedy prefix
dictates; the snapshot facts evaluated at `wStore`. -/
theorem C5_evict_policy_witness :
    dlookup wDrained.meta 0 =
      (if 0 ∈ specSelect (evictable wStore) 10 then none
       else dlookup wStore.meta 0) ∧
    (wRec.sealed = true ∧ wRec.refcount = 1 ∧ (0, wRec) ∈ wStore.meta) ∧
    List.Sorted byTime (evictable wStore) :=
  ⟨C5_evict_policy.1 wStore 10 wDrained wStore_wf (by rfl) 0,
   (C5_evict_policy.2.1 wStore).1 (0, wRec) (by decide),
   (C5_evict_policy.2.1 wStore).2.2⟩
